import Mathlib

/-!
Verification of the coding-stylistic-extractor pipeline (`src/utils.py`,
class `StylisticExtractorUtils`) against its natural-language specification.

The filesystem is modelled as the list of paths the recursive glob of the
repository root would enumerate, in traversal order; machine-level I/O
(open/decode success, write success, the text-generation service call) is
modelled by explicit parameters so that each Python method becomes a pure
Lean function on explicit state.
-/

/-- Model of the `rglob(f'*{ext}')` filename test: a path is a candidate for
extension `ext` when the path ends with `ext` (extensions such as `".py"`
contain no path separator, so this coincides with the filename test). -/
def matchesExt (ext p : String) : Bool := ext.data.isSuffixOf p.data

/-- The inner loop of `scan_repository` for one extension: Python appends each
globbed path to the running `code_files` list and executes `break` as soon as
`len(code_files) >= max_files`, so the element that reaches the cap is kept and
only the remaining candidates of the current extension are skipped. -/
def scanExt (max_files : Nat) : List String → List String → List String
  | acc, [] => acc
  | acc, f :: rest =>
    if max_files ≤ (acc ++ [f]).length then acc ++ [f]
    else scanExt max_files (acc ++ [f]) rest

/-- `StylisticExtractorUtils.scan_repository`: an outer loop over the
configured extensions in order, each running the inner glob loop on the
candidates of that extension, starting from the list accumulated so far. -/
def scan_repository (files : List String) (max_files : Nat)
    (extensions : List String) : List String :=
  extensions.foldl
    (fun acc ext => scanExt max_files acc (files.filter (fun p => matchesExt ext p))) []

/-- Total number of candidates produced across the per-extension walks (the
count of files matching the configured extensions). -/
def match_count (files : List String) (extensions : List String) : Nat :=
  (extensions.map (fun ext => (files.filter (fun p => matchesExt ext p)).length)).sum

theorem scanExt_all (N : Nat) : ∀ (ms acc : List String),
    acc.length + ms.length ≤ N → scanExt N acc ms = acc ++ ms
  | [], acc, _ => by simp [scanExt]
  | f :: rest, acc, h => by
    simp only [List.length_cons] at h
    by_cases hc : N ≤ (acc ++ [f]).length
    · have hrest : rest = [] := by
        simp only [List.length_append, List.length_singleton] at hc
        exact List.length_eq_zero.mp (by omega)
      subst hrest
      simp [scanExt, hc]
    · simp only [scanExt]
      rw [if_neg hc, scanExt_all N rest (acc ++ [f])
        (by simp only [List.length_append, List.length_singleton]; omega)]
      simp

theorem scanExt_reach (N : Nat) : ∀ (ms acc : List String),
    acc.length < N → N ≤ acc.length + ms.length → (scanExt N acc ms).length = N
  | [], acc, hlt, hge => by simp at hge; omega
  | f :: rest, acc, hlt, hge => by
    simp only [scanExt]
    by_cases hc : N ≤ (acc ++ [f]).length
    · rw [if_pos hc]
      simp only [List.length_append, List.length_singleton] at hc ⊢
      omega
    · rw [if_neg hc]
      simp only [List.length_append, List.length_singleton] at hc
      exact scanExt_reach N rest (acc ++ [f])
        (by simp only [List.length_append, List.length_singleton]; omega)
        (by simp only [List.length_append, List.length_singleton]
            simp only [List.length_cons] at hge; omega)

theorem scanExt_le (N : Nat) : ∀ (ms acc : List String),
    acc.length < N → (scanExt N acc ms).length ≤ N
  | [], acc, hlt => by simpa [scanExt] using Nat.le_of_lt hlt
  | f :: rest, acc, hlt => by
    simp only [scanExt]
    by_cases hc : N ≤ (acc ++ [f]).length
    · rw [if_pos hc]
      simp only [List.length_append, List.length_singleton]
      omega
    · rw [if_neg hc]
      simp only [List.length_append, List.length_singleton] at hc
      exact scanExt_le N rest (acc ++ [f])
        (by simp only [List.length_append, List.length_singleton]; omega)

theorem scanExt_after_cap (N : Nat) (acc : List String) (f : String)
    (rest : List String) (h : N ≤ acc.length) :
    scanExt N acc (f :: rest) = acc ++ [f] := by
  simp only [scanExt]
  rw [if_pos (by simp only [List.length_append, List.length_singleton]; omega)]

theorem scanExt_ge_bound (N : Nat) (ms acc : List String) (h : N ≤ acc.length) :
    (scanExt N acc ms).length ≤ acc.length + 1 := by
  cases ms with
  | nil => simp [scanExt]
  | cons f rest =>
    rw [scanExt_after_cap N acc f rest h]
    simp

theorem scanExt_mem (N : Nat) : ∀ (ms acc : List String) (p : String),
    p ∈ scanExt N acc ms → p ∈ acc ∨ p ∈ ms
  | [], acc, p, h => Or.inl (by simpa [scanExt] using h)
  | f :: rest, acc, p, h => by
    simp only [scanExt] at h
    by_cases hc : N ≤ (acc ++ [f]).length
    · rw [if_pos hc] at h
      rcases List.mem_append.mp h with h1 | h1
      · exact Or.inl h1
      · simp only [List.mem_singleton] at h1
        exact Or.inr (by simp [h1])
    · rw [if_neg hc] at h
      rcases scanExt_mem N rest (acc ++ [f]) p h with h1 | h1
      · rcases List.mem_append.mp h1 with h2 | h2
        · exact Or.inl h2
        · simp only [List.mem_singleton] at h2
          exact Or.inr (by simp [h2])
      · exact Or.inr (List.mem_cons_of_mem f h1)

theorem scan_fold_count (files : List String) (N : Nat) : ∀ (E acc : List String),
    acc.length + match_count files E ≤ N →
    (E.foldl
      (fun acc ext => scanExt N acc (files.filter (fun p => matchesExt ext p))) acc).length
      = acc.length + match_count files E
  | [], acc, _ => by simp [match_count]
  | e :: rest, acc, h => by
    have hmc : match_count files (e :: rest)
        = (files.filter (fun p => matchesExt e p)).length + match_count files rest := by
      simp [match_count]
    rw [hmc] at h
    have hstep : scanExt N acc (files.filter (fun p => matchesExt e p))
        = acc ++ files.filter (fun p => matchesExt e p) :=
      scanExt_all N _ acc (by omega)
    simp only [List.foldl_cons, hstep]
    rw [scan_fold_count files N rest (acc ++ files.filter (fun p => matchesExt e p))
      (by simp only [List.length_append]; omega)]
    simp only [List.length_append, hmc]
    omega

theorem scan_fold_bound_ge (files : List String) (N : Nat) : ∀ (E acc : List String),
    N ≤ acc.length →
    (E.foldl
      (fun acc ext => scanExt N acc (files.filter (fun p => matchesExt ext p))) acc).length
      ≤ acc.length + E.length
  | [], acc, _ => by simp
  | e :: rest, acc, h => by
    simp only [List.foldl_cons]
    rcases hf : files.filter (fun p => matchesExt e p) with _ | ⟨f, fs⟩
    · have hs : scanExt N acc ([] : List String) = acc := rfl
      rw [hs]
      have := scan_fold_bound_ge files N rest acc h
      simp only [List.length_cons]
      omega
    · rw [scanExt_after_cap N acc f fs h]
      have := scan_fold_bound_ge files N rest (acc ++ [f])
        (by simp only [List.length_append, List.length_singleton]; omega)
      simp only [List.length_append, List.length_singleton, List.length_cons,
        List.length_nil] at this ⊢
      omega

theorem scan_fold_bound_lt (files : List String) (N : Nat) : ∀ (E acc : List String),
    acc.length < N →
    (E.foldl
      (fun acc ext => scanExt N acc (files.filter (fun p => matchesExt ext p))) acc).length
      ≤ N + E.length - 1
  | [], acc, h => by simp only [List.foldl_nil, List.length_nil]; omega
  | e :: rest, acc, h => by
    simp only [List.foldl_cons]
    by_cases hc : (scanExt N acc (files.filter (fun p => matchesExt e p))).length < N
    · have := scan_fold_bound_lt files N rest _ hc
      simp only [List.length_cons]
      omega
    · have hle := scanExt_le N (files.filter (fun p => matchesExt e p)) acc h
      have hge : N ≤ (scanExt N acc (files.filter (fun p => matchesExt e p))).length := by
        omega
      have := scan_fold_bound_ge files N rest _ hge
      simp only [List.length_cons]
      omega

theorem scan_fold_mem (files : List String) (N : Nat) : ∀ (E acc : List String) (p : String),
    p ∈ E.foldl
      (fun acc ext => scanExt N acc (files.filter (fun p => matchesExt ext p))) acc →
    p ∈ acc ∨ ∃ ext, ext ∈ E ∧ matchesExt ext p = true
  | [], acc, p, h => Or.inl (by simpa using h)
  | e :: rest, acc, p, h => by
    simp only [List.foldl_cons] at h
    rcases scan_fold_mem files N rest _ p h with h1 | ⟨ext, hmem, hmatch⟩
    · rcases scanExt_mem N _ acc p h1 with h2 | h2
      · exact Or.inl h2
      · refine Or.inr ⟨e, List.mem_cons_self e rest, ?_⟩
        exact (List.mem_filter.mp h2).2
    · exact Or.inr ⟨ext, List.mem_cons_of_mem e hmem, hmatch⟩

theorem scan_fold_empty (files : List String) (N : Nat) : ∀ (E acc : List String),
    (∀ ext ∈ E, files.filter (fun p => matchesExt ext p) = []) →
    E.foldl
      (fun acc ext => scanExt N acc (files.filter (fun p => matchesExt ext p))) acc = acc
  | [], acc, _ => rfl
  | e :: rest, acc, h => by
    simp only [List.foldl_cons, h e (List.mem_cons_self e rest), scanExt]
    exact scan_fold_empty files N rest acc (fun ext hx => h ext (List.mem_cons_of_mem e hx))

/-- C1: the claim that `scan_repository` returns at most `max_files` paths in
total, with every path of every later extension skipped once the cap is
reached, is false: Python's `break` leaves only the inner per-extension loop,
so with cap 1 and two extensions each matching one file the scan still appends
the second extension's file and returns 2 paths. -/
theorem C1_counterexample :
    scan_repository ["a.x", "b.y"] 1 [".x", ".y"] = ["a.x", "b.y"] ∧
    ¬ (scan_repository ["a.x", "b.y"] 1 [".x", ".y"]).length ≤ 1 := by
  constructor
  · rfl
  · decide

/-- C1 (amended): for a positive cap `N`, `scan_repository` returns at most
`N + (E.length - 1)` paths: reaching the cap short-circuits only the current
extension's walk, and every subsequent extension with at least one candidate
appends exactly one further path before its own walk is short-circuited. -/
theorem C1_theorem (files : List String) (N : Nat) (E : List String) (hN : 0 < N) :
    (scan_repository files N E).length ≤ N + E.length - 1 ∧
    ∀ (acc : List String) (f : String) (rest : List String), N ≤ acc.length →
      scanExt N acc (f :: rest) = acc ++ [f] := by
  constructor
  · have h := scan_fold_bound_lt files N E [] (by simpa using hN)
    simpa [scan_repository] using h
  · intro acc f rest h
    exact scanExt_after_cap N acc f rest h

/-- C1 witness: the amended bound and the one-extra-path behaviour at a
concrete input. -/
theorem C1_witness :
    (scan_repository ["a.x", "b.y"] 1 [".x", ".y"]).length ≤ 1 + 2 - 1 ∧
    scanExt 1 ["a.x"] ["b.y"] = ["a.x"] ++ ["b.y"] :=
  by
  have h := C1_theorem ["a.x", "b.y"] 1 [".x", ".y"] (by decide)
  exact ⟨h.1, h.2 ["a.x"] "b.y" [] (by decide)⟩

/-- C2: with a positive cap `N`, (1) when the total number of candidates
matching the configured extensions is below `N`, `scan_repository` returns
exactly that many paths, each with a suffix matching a configured extension;
(2) when more than `N` candidates all fall under one single extension (every
other configured extension matching nothing), it returns exactly `N` paths. -/
theorem C2_theorem (files : List String) (N : Nat) (E : List String) (hN : 0 < N) :
    (match_count files E < N →
      (scan_repository files N E).length = match_count files E ∧
      ∀ p ∈ scan_repository files N E, ∃ ext, ext ∈ E ∧ matchesExt ext p = true) ∧
    (∀ (E₁ E₂ : List String) (e₀ : String), E = E₁ ++ e₀ :: E₂ →
      (∀ ext, (ext ∈ E₁ ∨ ext ∈ E₂) → files.filter (fun p => matchesExt ext p) = []) →
      N < (files.filter (fun p => matchesExt e₀ p)).length →
      (scan_repository files N E).length = N) := by
  constructor
  · intro hlt
    constructor
    · have h := scan_fold_count files N E [] (by simpa using Nat.le_of_lt hlt)
      simpa [scan_repository] using h
    · intro p hp
      rcases scan_fold_mem files N E [] p (by simpa [scan_repository] using hp) with h | h
      · cases h
      · exact h
  · intro E₁ E₂ e₀ hE hempty hlen
    subst hE
    unfold scan_repository
    rw [List.foldl_append]
    rw [scan_fold_empty files N E₁ [] (fun ext hx => hempty ext (Or.inl hx))]
    simp only [List.foldl_cons]
    rw [scan_fold_empty files N E₂ _ (fun ext hx => hempty ext (Or.inr hx))]
    exact scanExt_reach N (files.filter (fun p => matchesExt e₀ p)) []
      (by simpa using hN) (by simpa using Nat.le_of_lt hlen)

/-- C2 witness: both parts at concrete inputs: two matching files below a cap
of 20 give exactly 2 paths each matching `.py`; two matching files above a cap
of 1 give exactly 1 path. -/
theorem C2_witness :
    ((scan_repository ["a.py", "b.py"] 20 [".py"]).length
        = match_count ["a.py", "b.py"] [".py"] ∧
      ∀ p ∈ scan_repository ["a.py", "b.py"] 20 [".py"],
        ∃ ext, ext ∈ [".py"] ∧ matchesExt ext p = true) ∧
    (scan_repository ["a.py", "b.py"] 1 [".py"]).length = 1 :=
  by
  have h20 := C2_theorem ["a.py", "b.py"] 20 [".py"] (by decide)
  have h1 := C2_theorem ["a.py", "b.py"] 1 [".py"] (by decide)
  exact ⟨h20.1 (by decide),
    h1.2 [] [] ".py" rfl (by rintro ext (h | h) <;> cases h) (by decide)⟩

/-- The record `read_files` builds per successfully read file: the path
relative to the repository root, the decoded content, and
`len(content.splitlines())`. -/
structure CodeSample where
  path : String
  content : String
  lines : Nat
deriving DecidableEq, Repr

/-- Python's `str.splitlines` on the character list of the decoded content,
with `'\n'` as the line boundary: each newline ends a line, and a trailing
newline does not open an additional empty final line. -/
def splitlines_list : List Char → List (List Char)
  | [] => []
  | c :: cs =>
    if c = '\n' then [] :: splitlines_list cs
    else
      match splitlines_list cs with
      | [] => [[c]]
      | l :: ls => (c :: l) :: ls

/-- `len(content.splitlines())`, the per-file line count of `read_files`. -/
def line_count (s : String) : Nat := (splitlines_list s.data).length

/-- `StylisticExtractorUtils.read_files`: the outcome of `open`/`read` for each
candidate path is modelled by an `Option String` (`none` when opening or
decoding raises). Each success appends one sample and adds its line count to
the running total; each failure is logged and skipped. Returns the sample list
together with the reported `total_lines`. -/
def read_files (inputs : List (String × Option String)) : List CodeSample × Nat :=
  inputs.foldl
    (fun acc inp =>
      match inp.2 with
      | none => acc
      | some content =>
        (acc.1 ++ [⟨inp.1, content, line_count content⟩], acc.2 + line_count content))
    ([], 0)

/-- The sample a successful read contributes, as a `filterMap` step. -/
def sample_of (inp : String × Option String) : Option CodeSample :=
  inp.2.map (fun content => ⟨inp.1, content, line_count content⟩)

theorem read_files_fold (inputs : List (String × Option String)) :
    ∀ (acc : List CodeSample × Nat),
    inputs.foldl
      (fun acc inp =>
        match inp.2 with
        | none => acc
        | some content =>
          (acc.1 ++ [⟨inp.1, content, line_count content⟩], acc.2 + line_count content))
      acc
    = (acc.1 ++ inputs.filterMap sample_of,
       acc.2 + ((inputs.filterMap sample_of).map CodeSample.lines).sum) := by
  induction inputs with
  | nil => intro acc; simp
  | cons inp rest ih =>
    intro acc
    rcases inp with ⟨p, c⟩
    cases c with
    | none =>
      simp only [List.foldl_cons]
      rw [ih]
      simp [sample_of]
    | some content =>
      simp only [List.foldl_cons]
      rw [ih]
      simp [sample_of]
      omega

/-- C3: `read_files` yields exactly one `CodeSample` per successfully read
path, in input order — it is the `filterMap` of the per-file read outcome —
and a failing path among three leaves exactly the two surviving samples in
their original order; no failure aborts the fold. -/
theorem C3_theorem :
    (∀ inputs : List (String × Option String),
      (read_files inputs).1 = inputs.filterMap sample_of) ∧
    (∀ p₁ c₁ p₂ p₃ c₃ : String,
      (read_files [(p₁, some c₁), (p₂, none), (p₃, some c₃)]).1
        = [⟨p₁, c₁, line_count c₁⟩, ⟨p₃, c₃, line_count c₃⟩]) := by
  constructor
  · intro inputs
    unfold read_files
    rw [read_files_fold]
    simp
  · intro p₁ c₁ p₂ p₃ c₃
    rfl

/-- C4: the reported aggregate total of `read_files` equals the sum of the
per-file line counts; every produced sample's `lines` field is the
`splitlines` count of its decoded content; and the count behaves as the
newline-delimited-segment definition dictates: an empty file has 0 lines, a
sole newline 1, a trailing newline adds no extra segment, and only a newline
followed by further content opens a new segment. -/
theorem C4_theorem :
    (∀ inputs : List (String × Option String),
      (read_files inputs).2 = ((read_files inputs).1.map CodeSample.lines).sum) ∧
    (∀ (inputs : List (String × Option String)) (s : CodeSample),
      s ∈ (read_files inputs).1 → s.lines = line_count s.content) ∧
    line_count "" = 0 ∧ line_count "\n" = 1 ∧ line_count "a\n" = 1 ∧
    line_count "a\nb" = 2 ∧ line_count "a\n\n" = 2 := by
  refine ⟨?_, ?_, by decide, by decide, by decide, by decide, by decide⟩
  · intro inputs
    unfold read_files
    rw [read_files_fold]
    simp
  · intro inputs s hs
    rw [(by unfold read_files; rw [read_files_fold]; simp :
      (read_files inputs).1 = inputs.filterMap sample_of)] at hs
    rcases List.mem_filterMap.mp hs with ⟨inp, _, heq⟩
    rcases inp with ⟨p, c⟩
    cases c with
    | none => simp [sample_of] at heq
    | some content =>
      simp only [sample_of, Option.map_some] at heq
      cases heq
      rfl

/-- C4 witness: the aggregate equation, the per-sample equation and the
empty-file count at a concrete input. -/
theorem C4_witness :
    (read_files [("a.py", some "x\ny")]).2
      = ((read_files [("a.py", some "x\ny")]).1.map CodeSample.lines).sum ∧
    (⟨"a.py", "x\ny", line_count "x\ny"⟩ : CodeSample).lines = line_count "x\ny" ∧
    line_count "" = 0 :=
  ⟨C4_theorem.1 [("a.py", some "x\ny")],
   C4_theorem.2.1 [("a.py", some "x\ny")] ⟨"a.py", "x\ny", line_count "x\ny"⟩
     (by show (⟨"a.py", "x\ny", line_count "x\ny"⟩ : CodeSample)
           ∈ [(⟨"a.py", "x\ny", line_count "x\ny"⟩ : CodeSample)]
         exact List.mem_singleton.mpr rfl),
   C4_theorem.2.2.1⟩

theorem str_append_assoc (a b c : String) : a ++ b ++ c = a ++ (b ++ c) := by
  apply String.ext
  simp [String.data_append]

theorem str_empty_append (a : String) : "" ++ a = a := by
  apply String.ext
  simp [String.data_append]

theorem str_append_empty (a : String) : a ++ "" = a := by
  apply String.ext
  simp [String.data_append]

/-- Python's `'sep'.join(parts)`. -/
def join_sep (sep : String) : List String → String
  | [] => ""
  | [x] => x
  | x :: xs => x ++ sep ++ join_sep sep xs

/-- The per-sample block of the `combined_code` built by `extraction`: the
`### File:` marker with the relative path, a newline, the opening
triple-backtick `python` fence, the full content, a newline and the closing
fence. -/
def render_sample (sample : CodeSample) : String :=
  "### File: " ++ sample.path ++ "\n```python\n" ++ sample.content ++ "\n```"

/-- `combined_code = "\n\n".join(...)` over the rendered samples, in order. -/
def build_combined_code (code_samples : List CodeSample) : String :=
  join_sep "\n\n" (code_samples.map render_sample)

/-- The fixed instructional text of the extraction prompt before
`{combined_code}` (source lines 88-148, verbatim). -/
def PROMPT_PRE : String :=
  "I want you to analyze these Python files from my repository and create a comprehensive coding style guide.\n\nThese files represent my personal coding style developed over time. Your task is to:\n\n1. **Identify patterns and conventions** across all files\n2. **Create a detailed markdown style guide** that captures my distinctive coding style\n3. **Include specific examples** from my actual code\n4. **Make it prescriptive** so another AI could replicate my style exactly\n\nAnalyze these aspects:\n\n**Documentation:**\n- Docstring format (Google/NumPy/Sphinx style?)\n- What sections do I include? (Args, Returns, Examples, etc.)\n- Level of detail in docstrings\n- Module-level documentation patterns\n\n**Type Hints:**\n- Where and when do I use type annotations?\n- Full typing or selective?\n- Complex types (Union, Optional, List, Dict patterns)\n\n**Naming Conventions:**\n- Variable naming (length, descriptiveness, patterns)\n- Function naming (verbs, patterns)\n- Class naming\n- Constants (if any)\n- Private/protected members (underscore usage)\n\n**Code Organization:**\n- Import ordering and grouping\n- Class structure (method ordering, organization)\n- File structure patterns\n- Use of __init__.py, __main__.py\n\n**Comments:**\n- When do I add comments?\n- Inline vs block comments\n- Comment style and detail level\n\n**Code Style:**\n- Line length preferences\n- Indentation patterns\n- Blank line usage\n- String quotes (single vs double)\n\n**Python Idioms:**\n- List/dict comprehensions usage\n- Use of decorators\n- Context managers\n- Generators and iterators\n- Exception handling patterns\n\n**Distinctive Patterns:**\n- Any unique or characteristic patterns you notice\n- Preferred libraries or approaches\n- Code complexity preferences\n\nHere are my Python files:\n\n"

/-- The fixed instructional text of the extraction prompt after
`{combined_code}` (source lines 150-151, verbatim). -/
def PROMPT_POST : String :=
  "\n\nCreate a markdown document with clear sections, examples, and actionable rules.\nFormat it as a professional style guide that could be given to a coding agent."

/-- The full composed prompt of `extraction`: fixed template around the
verbatim per-file renderings. -/
def build_prompt (code_samples : List CodeSample) : String :=
  PROMPT_PRE ++ build_combined_code code_samples ++ PROMPT_POST

theorem join_sep_mem (sep : String) (f : CodeSample → String) :
    ∀ (cs : List CodeSample) (s : CodeSample), s ∈ cs →
    ∃ a b : String, join_sep sep (cs.map f) = a ++ f s ++ b
  | [], s, h => absurd h (List.not_mem_nil s)
  | x :: xs, s, h => by
    cases xs with
    | nil =>
      simp only [List.mem_singleton] at h
      subst h
      exact ⟨"", "", by
        simp only [List.map_cons, List.map_nil, join_sep]
        rw [str_empty_append, str_append_empty]⟩
    | cons y ys =>
      rcases List.mem_cons.mp h with h1 | h1
      · subst h1
        refine ⟨"", sep ++ join_sep sep ((y :: ys).map f), ?_⟩
        simp only [List.map_cons, join_sep]
        rw [str_empty_append, str_append_assoc]
      · rcases join_sep_mem sep f (y :: ys) s h1 with ⟨a, b, hab⟩
        refine ⟨f x ++ sep ++ a, b, ?_⟩
        simp only [List.map_cons, join_sep] at hab ⊢
        rw [hab]
        apply String.ext
        simp [String.data_append]

theorem prompt_contains_render (cs : List CodeSample) (s : CodeSample) (h : s ∈ cs) :
    ∃ a b : String, build_prompt cs = a ++ render_sample s ++ b := by
  rcases join_sep_mem "\n\n" render_sample cs s h with ⟨a, b, hab⟩
  refine ⟨PROMPT_PRE ++ a, b ++ PROMPT_POST, ?_⟩
  unfold build_prompt build_combined_code
  rw [hab]
  apply String.ext
  simp [String.data_append]

/-- C5: prompt composition is a deterministic pure function of the ordered
sample sequence — identical input yields identical composed text — and no
sample's content is truncated or summarized: each content string occurs
verbatim inside the composed prompt. -/
theorem C5_theorem :
    (∀ cs₁ cs₂ : List CodeSample, cs₁ = cs₂ → build_prompt cs₁ = build_prompt cs₂) ∧
    (∀ (cs : List CodeSample) (s : CodeSample), s ∈ cs →
      ∃ a b : String, build_prompt cs = a ++ s.content ++ b) := by
  constructor
  · intro cs₁ cs₂ h
    rw [h]
  · intro cs s h
    rcases prompt_contains_render cs s h with ⟨a, b, hab⟩
    refine ⟨a ++ ("### File: " ++ s.path ++ "\n```python\n"), "\n```" ++ b, ?_⟩
    rw [hab]
    apply String.ext
    simp [String.data_append, render_sample]

/-- C5 witness: determinism and verbatim content containment at a concrete
one-sample input. -/
theorem C5_witness :
    build_prompt [⟨"a.py", "print(1)", 1⟩] = build_prompt [⟨"a.py", "print(1)", 1⟩] ∧
    ∃ a b : String, build_prompt [⟨"a.py", "print(1)", 1⟩] = a ++ "print(1)" ++ b :=
  ⟨C5_theorem.1 [⟨"a.py", "print(1)", 1⟩] [⟨"a.py", "print(1)", 1⟩] rfl,
   C5_theorem.2 [⟨"a.py", "print(1)", 1⟩] ⟨"a.py", "print(1)", 1⟩
     (List.mem_singleton.mpr rfl)⟩

/-- C6: every sample's full content appears verbatim in the composed prompt,
demarcated by the `### File: <relative_path>` marker and wrapped in the code
fence that separates file boundaries from source text. -/
theorem C6_theorem (cs : List CodeSample) (s : CodeSample) (h : s ∈ cs) :
    ∃ a b : String,
      build_prompt cs
        = a ++ ("### File: " ++ s.path ++ "\n```python\n" ++ s.content ++ "\n```") ++ b := by
  rcases prompt_contains_render cs s h with ⟨a, b, hab⟩
  exact ⟨a, b, by
    rw [hab]
    apply String.ext
    simp [String.data_append, render_sample]⟩

/-- C6 witness: the demarcated verbatim block at a concrete two-sample
input. -/
theorem C6_witness :
    ∃ a b : String,
      build_prompt [⟨"a.py", "x = 1", 1⟩, ⟨"b.py", "y = 2", 1⟩]
        = a ++ ("### File: " ++ "b.py" ++ "\n```python\n" ++ "y = 2" ++ "\n```") ++ b :=
  C6_theorem [⟨"a.py", "x = 1", 1⟩, ⟨"b.py", "y = 2", 1⟩] ⟨"b.py", "y = 2", 1⟩
    (List.mem_cons_of_mem _ (List.mem_singleton.mpr rfl))

/-- The failure modes of the blocking `client.messages.create` call: any of
them surfaces as a Python exception inside `extraction`. -/
inductive ApiError where
  | network
  | authentication
  | quota
  | malformed
deriving DecidableEq, Repr

/-- One message of `conversation_history`. The code uses role `"user"` for
the requester and `"assistant"` for the model. -/
structure AnalysisTurn where
  role : String
  content : String
deriving DecidableEq, Repr

/-- The mutable fields of `StylisticExtractorUtils` that the Session owns:
`conversation_history` (initially `[]`) and `current_draft` (initially
`None`). -/
structure SessionState where
  conversation_history : List AnalysisTurn
  current_draft : Option String
deriving DecidableEq, Repr

/-- `StylisticExtractorUtils.extraction`: composes the prompt, issues the
blocking service call (modelled by `api`), and only after a successful return
sets `current_draft` and appends the user turn followed by the assistant turn.
A service exception propagates before any mutation, so on error the state is
returned unchanged. Returns the post-call state together with the draft or the
error. -/
def extraction (st : SessionState) (code_samples : List CodeSample)
    (api : String → Except ApiError String) : SessionState × Except ApiError String :=
  match api (build_prompt code_samples) with
  | .error e => (st, .error e)
  | .ok text =>
    ({ conversation_history := st.conversation_history ++
         [⟨"user", build_prompt code_samples⟩, ⟨"assistant", text⟩],
       current_draft := some text },
     .ok text)

/-- The outcome `save_draft` reports to the operator. -/
inductive SaveOutcome where
  | no_content
  | saved (text : String)
  | save_error
deriving DecidableEq, Repr

/-- `StylisticExtractorUtils.save_draft`: an explicit `content` argument takes
precedence, otherwise the current draft is used; with neither available it
only prints the informational `No content to save!` message and returns;
otherwise it attempts the write (success modelled by `write_succeeds`),
catching and logging any failure. It never assigns to the session fields, so
the state is returned unchanged. -/
def save_draft (st : SessionState) (content : Option String)
    (write_succeeds : Bool) : SessionState × SaveOutcome :=
  match content, st.current_draft with
  | none, none => (st, .no_content)
  | none, some c => if write_succeeds then (st, .saved c) else (st, .save_error)
  | some c, _ => if write_succeeds then (st, .saved c) else (st, .save_error)

theorem extraction_of_ok (st : SessionState) (code_samples : List CodeSample)
    (api : String → Except ApiError String) (text : String)
    (hapi : api (build_prompt code_samples) = .ok text) :
    extraction st code_samples api
      = (⟨st.conversation_history ++
            [⟨"user", build_prompt code_samples⟩, ⟨"assistant", text⟩],
          some text⟩,
         .ok text) := by
  unfold extraction
  rw [hapi]

theorem extraction_of_error (st : SessionState) (code_samples : List CodeSample)
    (api : String → Except ApiError String) (e : ApiError)
    (hapi : api (build_prompt code_samples) = .error e) :
    extraction st code_samples api = (st, .error e) := by
  unfold extraction
  rw [hapi]

theorem save_draft_frame (st : SessionState) (content : Option String)
    (write_succeeds : Bool) : (save_draft st content write_succeeds).1 = st := by
  obtain ⟨hist, draft⟩ := st
  rcases content with _ | c <;> rcases draft with _ | d <;>
    cases write_succeeds <;> rfl

/-- The session states the program can reach: the freshly initialized object,
anything `extraction` returns (on success or on a propagated service error),
and anything `save_draft` returns. -/
inductive Reachable : SessionState → Prop
  | init : Reachable ⟨[], none⟩
  | extract {st : SessionState} (code_samples : List CodeSample)
      (api : String → Except ApiError String) :
      Reachable st → Reachable (extraction st code_samples api).1
  | save {st : SessionState} (content : Option String) (write_succeeds : Bool) :
      Reachable st → Reachable (save_draft st content write_succeeds).1

/-- Strict requester/model alternation starting with a requester turn. -/
def alternates : List AnalysisTurn → Bool
  | [] => true
  | [t] => t.role == "user"
  | t1 :: t2 :: rest => t1.role == "user" && t2.role == "assistant" && alternates rest

theorem alternates_append_pair (p t : String) :
    ∀ h : List AnalysisTurn, alternates h = true → h.length % 2 = 0 →
      alternates (h ++ [⟨"user", p⟩, ⟨"assistant", t⟩]) = true
  | [], _, _ => by simp [alternates]
  | [x], _, hl => by simp at hl
  | x :: y :: rest, ha, hl => by
    simp only [alternates, Bool.and_eq_true, beq_iff_eq] at ha
    simp only [List.length_cons] at hl
    simp only [List.cons_append, alternates, Bool.and_eq_true, beq_iff_eq]
    exact ⟨ha.1, alternates_append_pair p t rest ha.2 (by omega)⟩

theorem reachable_invariant (st : SessionState) (h : Reachable st) :
    alternates st.conversation_history = true ∧
    st.conversation_history.length % 2 = 0 := by
  induction h with
  | init => exact ⟨rfl, rfl⟩
  | extract code_samples api hr ih =>
    rename_i st'
    cases hapi : api (build_prompt code_samples) with
    | error e =>
      rw [extraction_of_error st' code_samples api e hapi]
      exact ih
    | ok text =>
      rw [extraction_of_ok st' code_samples api text hapi]
      refine ⟨alternates_append_pair (build_prompt code_samples) text
        st'.conversation_history ih.1 ih.2, ?_⟩
      simp only [List.length_append, List.length_cons, List.length_nil]
      omega
  | save content write_succeeds hr ih =>
    rename_i st'
    rw [save_draft_frame st' content write_succeeds]
    exact ih

/-- C7: every reachable conversation history alternates strictly
requester(`"user"`)/model(`"assistant"`) starting with a requester turn, and
one successful `extraction` from an empty history leaves exactly the two-turn
history: the requester turn holding the composed prompt, then the model turn
holding the returned text. -/
theorem C7_theorem :
    (∀ st : SessionState, Reachable st → alternates st.conversation_history = true) ∧
    (∀ (code_samples : List CodeSample) (api : String → Except ApiError String)
        (st : SessionState) (text : String),
      extraction ⟨[], none⟩ code_samples api = (st, .ok text) →
      st.conversation_history
        = [⟨"user", build_prompt code_samples⟩, ⟨"assistant", text⟩]) := by
  constructor
  · exact fun st h => (reachable_invariant st h).1
  · intro code_samples api st text hx
    cases hapi : api (build_prompt code_samples) with
    | error e =>
      rw [extraction_of_error ⟨[], none⟩ code_samples api e hapi] at hx
      injection hx with h1 h2
      injection h2
    | ok t2 =>
      rw [extraction_of_ok ⟨[], none⟩ code_samples api t2 hapi] at hx
      injection hx with h1 h2
      injection h2 with h3
      subst h3
      rw [← h1]
      simp

/-- C7 witness: the invariant at the initial state and the two-turn history
after one successful submission at a concrete input. -/
theorem C7_witness :
    alternates (⟨[], none⟩ : SessionState).conversation_history = true ∧
    (⟨[⟨"user", build_prompt []⟩, ⟨"assistant", "guide"⟩], some "guide"⟩
        : SessionState).conversation_history
      = [⟨"user", build_prompt []⟩, ⟨"assistant", "guide"⟩] :=
  ⟨C7_theorem.1 ⟨[], none⟩ Reachable.init,
   C7_theorem.2 [] (fun _ => .ok "guide")
     ⟨[⟨"user", build_prompt []⟩, ⟨"assistant", "guide"⟩], some "guide"⟩ "guide" rfl⟩

/-- C8: the claim that `submit` appends a requester turn and then issues the
service call is false on the error path: the code issues the call first, so
when the call raises, the history gains no requester turn at all — here, after
a failed extraction from the empty state, the history is empty rather than
holding the requester turn. -/
theorem C8_counterexample :
    (extraction ⟨[], none⟩ [] (fun _ => .error .network)).1.conversation_history
      = [] ∧
    (extraction ⟨[], none⟩ [] (fun _ => .error .network)).1.conversation_history
      ≠ [⟨"user", build_prompt []⟩] := by
  refine ⟨rfl, fun h => ?_⟩
  exact List.noConfusion h

/-- C8 (amended): `extraction` issues the blocking service call and only on
success appends the requester turn followed by the model turn and sets the
current draft to the returned text; on a service error it appends no turn at
all — neither requester nor model — and leaves both the history and the draft
unchanged from before the call. -/
theorem C8_theorem (st : SessionState) (code_samples : List CodeSample)
    (api : String → Except ApiError String) :
    (∀ text, api (build_prompt code_samples) = .ok text →
      extraction st code_samples api
        = (⟨st.conversation_history ++
              [⟨"user", build_prompt code_samples⟩, ⟨"assistant", text⟩],
            some text⟩, .ok text)) ∧
    (∀ e, api (build_prompt code_samples) = .error e →
      extraction st code_samples api = (st, .error e)) :=
  ⟨fun text h => extraction_of_ok st code_samples api text h,
   fun e h => extraction_of_error st code_samples api e h⟩

/-- C8 witness: a successful and a failing call at concrete inputs. -/
theorem C8_witness :
    extraction ⟨[], none⟩ [] (fun _ => .ok "guide")
      = (⟨[⟨"user", build_prompt []⟩, ⟨"assistant", "guide"⟩], some "guide"⟩,
         .ok "guide") ∧
    extraction ⟨[], none⟩ [] (fun _ => .error .quota)
      = (⟨[], none⟩, .error .quota) :=
  ⟨(C8_theorem ⟨[], none⟩ [] (fun _ => .ok "guide")).1 "guide" rfl,
   (C8_theorem ⟨[], none⟩ [] (fun _ => .error .quota)).2 .quota rfl⟩

/-- C9: with no explicit content and no current draft, `save_draft` performs
no write, reports only the informational `No content to save!` outcome, and
returns normally with the state unchanged. -/
theorem C9_theorem (st : SessionState) (write_succeeds : Bool)
    (h : st.current_draft = none) :
    save_draft st none write_succeeds = (st, SaveOutcome.no_content) := by
  unfold save_draft
  rw [h]

/-- C9 witness: the no-draft no-content call at the initial state. -/
theorem C9_witness :
    save_draft ⟨[], none⟩ none true = (⟨[], none⟩, SaveOutcome.no_content) :=
  C9_theorem ⟨[], none⟩ true rfl

/-- C10: `save_draft` never mutates the session: whatever the content
argument, the draft availability and the write outcome, both
`conversation_history` and `current_draft` are unchanged by the call. -/
theorem C10_theorem (st : SessionState) (content : Option String)
    (write_succeeds : Bool) :
    (save_draft st content write_succeeds).1.conversation_history
        = st.conversation_history ∧
    (save_draft st content write_succeeds).1.current_draft = st.current_draft := by
  rw [save_draft_frame st content write_succeeds]
  exact ⟨rfl, rfl⟩
